import Mathlib

/-!
Verification of the `spright` sprite-batching renderer.

This file gives a shallow embedding in Lean 4 of the CPU-side logic of the
crate: the affine-transform type (`src/transform.rs`), the adjacent-grouping
("batching") algorithm (`src/batch.rs`, and the identical `chunk_by` call
inside `Renderer::prepare` in `src/lib.rs`), the texture-slice bounds checks
(`src/lib.rs`), the grow-only `DynamicBuffer` (`src/lib.rs`), the uniform
packing-offset arithmetic, and the vertex/index construction performed by
`Renderer::prepare`.

Modelling conventions:
* `f32` scalars are modelled as `ℚ`.  Every concrete computation verified
  here uses values on which `f32` arithmetic is exact (small integers), so
  the rational model agrees with the floating-point evaluation there.
* `u32` is modelled as `Nat` and `i32` as `Int`.  The Rust cast
  `u32 as i32` is wrapping by definition of `as`, and is modelled
  faithfully by `u32AsI32` below.  `i32` additions are modelled exactly
  (in the concrete inputs considered, no `i32` addition overflows).
* GPU handles (textures) are identified by a `Nat` identity, matching the
  pointer-identity comparison done by `chunk_by(|s| s.texture)`.
* `Vec` growth is modelled by list append; `Vec::len` by `List.length`.
-/

namespace Spright

/-! ## AffineTransform (`src/transform.rs`)

The Rust type is `struct AffineTransform([f32; 6])`; field `ai` models
`self.0[i]`. -/

structure AffineTransform where
  a0 : ℚ
  a1 : ℚ
  a2 : ℚ
  a3 : ℚ
  a4 : ℚ
  a5 : ℚ
deriving DecidableEq, Repr

namespace AffineTransform

/-- `AffineTransform::translation(tx, ty)`. -/
def translation (tx ty : ℚ) : AffineTransform :=
  ⟨1, 0, 0, 1, tx, ty⟩

/-- `AffineTransform::scaling(sx, sy)`. -/
def scaling (sx sy : ℚ) : AffineTransform :=
  ⟨sx, 0, 0, sy, 0, 0⟩

/-- `AffineTransform::determinant`: `self.0[0] * self.0[3] - self.0[1] * self.0[2]`. -/
def determinant (t : AffineTransform) : ℚ :=
  t.a0 * t.a3 - t.a1 * t.a2

/-- `AffineTransform::inverse`: returns `none` when the determinant is zero,
otherwise the cofactor formula from the source. -/
def inverse (t : AffineTransform) : Option AffineTransform :=
  let det := t.determinant
  if det = 0 then
    none
  else
    some ⟨t.a3 / det, -t.a1 / det, -t.a2 / det, t.a0 / det,
      (t.a1 * t.a5 - t.a3 * t.a4) / det,
      (t.a4 * t.a2 - t.a0 * t.a5) / det⟩

/-- `AffineTransform::transform(x, y)`. -/
def transform (t : AffineTransform) (x y : ℚ) : ℚ × ℚ :=
  (x * t.a0 + y * t.a2 + t.a4, x * t.a1 + y * t.a3 + t.a5)

/-- `MulAssign for AffineTransform` (and hence `Mul`, which delegates to it):
the six components written by `mul_assign`, with `t` playing `self` and `r`
playing `rhs`. -/
def mul (t r : AffineTransform) : AffineTransform :=
  ⟨t.a0 * r.a0 + t.a1 * r.a2,
   t.a0 * r.a1 + t.a1 * r.a3,
   t.a2 * r.a0 + t.a3 * r.a2,
   t.a2 * r.a1 + t.a3 * r.a3,
   t.a4 * r.a0 + t.a5 * r.a2 + r.a4,
   t.a4 * r.a1 + t.a5 * r.a3 + r.a5⟩

instance : Mul AffineTransform := ⟨mul⟩

theorem mul_def (t r : AffineTransform) : t * r = t.mul r := rfl

end AffineTransform

/-! ## Adjacent grouping (`itertools::Itertools::chunk_by`)

Both `batch` in `src/batch.rs` and `Renderer::prepare` in `src/lib.rs` group
the sprite list with `sprites.iter().chunk_by(|s| s.texture)`: a single
linear scan that starts a new chunk whenever the key of the current element
differs from the key of the previous one.  `chunkBy` is that algorithm. -/

def chunkBy {α κ : Type} [DecidableEq κ] (key : α → κ) : List α → List (List α)
  | [] => []
  | [a] => [[a]]
  | a :: b :: rest =>
    match chunkBy key (b :: rest) with
    | [] => [[a]]
    | g :: gs => if key a = key b then (a :: g) :: gs else [a] :: g :: gs

/-- Every chunk produced from a nonempty input starts with the input's head. -/
theorem chunkBy_cons {α κ : Type} [DecidableEq κ] (key : α → κ) (a : α) (l : List α) :
    ∃ g gs, chunkBy key (a :: l) = (a :: g) :: gs := by
  induction l generalizing a with
  | nil => exact ⟨[], [], rfl⟩
  | cons b rest ih =>
    obtain ⟨g, gs, h⟩ := ih b
    by_cases hk : key a = key b
    · exact ⟨b :: g, gs, by simp [chunkBy, h, hk]⟩
    · exact ⟨[], (b :: g) :: gs, by simp [chunkBy, h, hk]⟩

/-- Concatenating the chunks in order reproduces the input list. -/
theorem flatten_chunkBy {α κ : Type} [DecidableEq κ] (key : α → κ) (l : List α) :
    (chunkBy key l).flatten = l := by
  induction l with
  | nil => rfl
  | cons a rest ih =>
    cases rest with
    | nil => rfl
    | cons b r =>
      obtain ⟨g, gs, h⟩ := chunkBy_cons key b r
      rw [h] at ih
      simp only [List.flatten_cons, List.cons_append] at ih
      by_cases hk : key a = key b
      · simp [chunkBy, h, hk, ih]
      · simp [chunkBy, h, hk, ih]

/-- No chunk is empty. -/
theorem ne_nil_of_mem_chunkBy {α κ : Type} [DecidableEq κ] (key : α → κ)
    {l : List α} {g : List α} (hg : g ∈ chunkBy key l) : g ≠ [] := by
  induction l generalizing g with
  | nil => simp [chunkBy] at hg
  | cons a rest ih =>
    cases rest with
    | nil =>
      simp only [chunkBy, List.mem_singleton] at hg
      simp [hg]
    | cons b r =>
      obtain ⟨g', gs, h⟩ := chunkBy_cons key b r
      by_cases hk : key a = key b
      · rw [show chunkBy key (a :: b :: r) = (a :: b :: g') :: gs by
            simp [chunkBy, h, hk]] at hg
        rcases List.mem_cons.mp hg with h1 | h1
        · simp [h1]
        · exact ih (g := g) (by rw [h]; exact List.mem_cons_of_mem _ h1)
      · rw [show chunkBy key (a :: b :: r) = [a] :: (b :: g') :: gs by
            simp [chunkBy, h, hk]] at hg
        rcases List.mem_cons.mp hg with h1 | h1
        · simp [h1]
        · exact ih (g := g) (by rw [h]; exact h1)

/-- Adjacent chunks carry different keys (keys read off the first element of
each chunk, as `chunk.first().unwrap()` does in the source). -/
theorem chain_chunkBy {α κ : Type} [DecidableEq κ] [Inhabited α] (key : α → κ)
    (l : List α) :
    List.Chain' (fun g h => key g.headI ≠ key h.headI) (chunkBy key l) := by
  induction l with
  | nil => simp [chunkBy]
  | cons a rest ih =>
    cases rest with
    | nil => simp [chunkBy]
    | cons b r =>
      obtain ⟨g, gs, h⟩ := chunkBy_cons key b r
      rw [h] at ih
      by_cases hk : key a = key b
      · rw [show chunkBy key (a :: b :: r) = (a :: b :: g) :: gs by
            simp [chunkBy, h, hk]]
        cases gs with
        | nil => simp
        | cons g2 gs2 =>
          rw [List.chain'_cons] at ih ⊢
          exact ⟨by simpa [hk] using ih.1, ih.2⟩
      · rw [show chunkBy key (a :: b :: r) = [a] :: (b :: g) :: gs by
            simp [chunkBy, h, hk]]
        rw [List.chain'_cons]
        exact ⟨by simpa using hk, ih⟩

/-! ## Vector/color primitives (`glam`, `rgb`)

`IVec2`/`UVec2` model `glam::IVec2`/`glam::UVec2`; `Color` models
`rgb::RGBA8`; `Affine2` models `glam::Affine2` (a 2x2 column-major matrix
plus a translation vector, with `transform_point2 p = matrix2 * p +
translation`). -/

structure IVec2 where
  x : Int
  y : Int
deriving DecidableEq, Repr

structure UVec2 where
  x : Nat
  y : Nat
deriving DecidableEq, Repr

structure Color where
  r : Nat
  g : Nat
  b : Nat
  a : Nat
deriving DecidableEq, Repr

structure Affine2 where
  xAxis : ℚ × ℚ
  yAxis : ℚ × ℚ
  translation : ℚ × ℚ
deriving DecidableEq, Repr

instance : Inhabited Affine2 := ⟨⟨(1, 0), (0, 1), (0, 0)⟩⟩

/-- `glam::Affine2::transform_point2`. -/
def Affine2.transformPoint2 (t : Affine2) (p : ℚ × ℚ) : ℚ × ℚ :=
  (t.xAxis.1 * p.1 + t.yAxis.1 * p.2 + t.translation.1,
   t.xAxis.2 * p.1 + t.yAxis.2 * p.2 + t.translation.2)

/-! ## `batch` (`src/batch.rs`)

Textures are GPU handles compared by identity in the source
(`chunk_by(|s| s.texture)` on `&wgpu::Texture` references); each texture is
modelled by a `Nat` identity.  `Item` and `Group` are the crate's output
types, with the fields exactly as constructed by `batch`. -/

structure BatchSprite where
  texture : Nat
  src_offset : IVec2
  src_size : UVec2
  src_layer : Nat
  transform : Affine2
  tint : Color
deriving DecidableEq, Repr

instance : Inhabited BatchSprite :=
  ⟨⟨0, ⟨0, 0⟩, ⟨0, 0⟩, 0, default, ⟨0, 0, 0, 0⟩⟩⟩

structure Item where
  src_offset : IVec2
  src_size : UVec2
  src_layer : Nat
  transform : Affine2
  tint : Color
deriving DecidableEq, Repr

structure Group where
  texture : Nat
  items : List Item
deriving DecidableEq, Repr

/-- The per-sprite field copy done inside `batch`'s `map`. -/
def itemOfSprite (s : BatchSprite) : Item :=
  ⟨s.src_offset, s.src_size, s.src_layer, s.transform, s.tint⟩

/-- `batch` (`src/batch.rs:26-48`): chunk adjacent sprites by texture
identity; each group's texture is its first sprite's texture
(`chunk.first().unwrap().texture`, total here via `headI`, justified by
`ne_nil_of_mem_chunkBy`). -/
def batch (sprites : List BatchSprite) : List Group :=
  (chunkBy (fun s => s.texture) sprites).map fun chunk =>
    { texture := chunk.headI.texture
      items := chunk.map itemOfSprite }

/-- A sprite with a given texture identity and inert remaining fields, used
for concrete scenarios. -/
def mkSprite (t : Nat) : BatchSprite :=
  { texture := t
    src_offset := ⟨0, 0⟩
    src_size := ⟨0, 0⟩
    src_layer := 0
    transform := default
    tint := ⟨0, 0, 0, 0⟩ }

/-! ## Rect and TextureSlice (`src/lib.rs:7-91`)

`u32AsI32` is the Rust cast `u32 as i32`, which is wrapping by the language
definition of `as` (it never panics): values `>= 2^31` wrap to negatives.
`Rect::right`/`Rect::bottom` compute `offset + size as i32` with exactly
this cast. -/

def u32AsI32 (n : Nat) : Int :=
  if n < 2 ^ 31 then (n : Int) else (n : Int) - 2 ^ 32

structure Rect where
  offset : IVec2
  size : UVec2
deriving DecidableEq, Repr

namespace Rect

/-- `Rect::new`. -/
def new (x y : Int) (width height : Nat) : Rect :=
  ⟨⟨x, y⟩, ⟨width, height⟩⟩

/-- `Rect::left`. -/
def left (r : Rect) : Int := r.offset.x

/-- `Rect::top`. -/
def top (r : Rect) : Int := r.offset.y

/-- `Rect::right`: `self.offset.x + self.size.x as i32`. -/
def right (r : Rect) : Int := r.offset.x + u32AsI32 r.size.x

/-- `Rect::bottom`: `self.offset.y + self.size.y as i32`. -/
def bottom (r : Rect) : Int := r.offset.y + u32AsI32 r.size.y

end Rect

/-- The data of a `wgpu::Texture` consumed by this crate: an identity (GPU
handle, compared by reference in the source), its `size()` extents and a
format (only "is it `R8Unorm`" matters). -/
structure Texture where
  id : Nat
  width : Nat
  height : Nat
  depthOrArrayLayers : Nat
  isR8Unorm : Bool
deriving DecidableEq, Repr

structure TextureSlice where
  texture : Nat
  layer : Nat
  rect : Rect
deriving DecidableEq, Repr

namespace TextureSlice

/-- `TextureSlice::from_layer` (`src/lib.rs:48-59`). -/
def from_layer (t : Texture) (layer : Nat) : Option TextureSlice :=
  if layer ≥ t.depthOrArrayLayers then
    none
  else
    some { texture := t.id, layer := layer, rect := Rect.new 0 0 t.width t.height }

/-- `TextureSlice::slice` (`src/lib.rs:66-85`): build the candidate rectangle
at `self.rect.offset + offset` with the given size, reject it when an edge
leaves `self.rect`, as computed by the source's `left/right/top/bottom`. -/
def slice (s : TextureSlice) (offset : IVec2) (size : UVec2) : Option TextureSlice :=
  let rect : Rect := ⟨⟨s.rect.offset.x + offset.x, s.rect.offset.y + offset.y⟩, size⟩
  if rect.left < s.rect.left ∨ rect.right > s.rect.right
      ∨ rect.top < s.rect.top ∨ rect.bottom > s.rect.bottom then
    none
  else
    some { texture := s.texture, layer := s.layer, rect := rect }

end TextureSlice

/-! ## Sprite and the vertex/index construction of `Renderer::prepare`
(`src/lib.rs:93-104`, `408-518`) -/

structure Sprite where
  slice : TextureSlice
  transform : Affine2
  tint : Color
deriving DecidableEq, Repr

structure Vertex where
  position : ℚ × ℚ × ℚ
  texCoords : ℚ × ℚ
  layer : Nat
  tint : ℚ × ℚ × ℚ × ℚ
deriving DecidableEq, Repr

/-- The `tint` array: each `u8` channel divided by `255.0`. -/
def tintArray (c : Color) : ℚ × ℚ × ℚ × ℚ :=
  ((c.r : ℚ) / 255, (c.g : ℚ) / 255, (c.b : ℚ) / 255, (c.a : ℚ) / 255)

/-- The four `Vertex` values `prepare` pushes for one sprite
(`src/lib.rs:426-470`), in source order: corners `(0,0)`,
`(0,size.y)`, `(size.x,0)`, `(size.x,size.y)` of the source rectangle,
transformed by the sprite's `Affine2` and extended with `z = 0`. -/
def spriteVertices (s : Sprite) : List Vertex :=
  let sz := s.slice.rect.size
  let tint := tintArray s.tint
  let corner := fun (x y : ℚ) =>
    let p := s.transform.transformPoint2 (x, y)
    (p.1, p.2, (0 : ℚ))
  [{ position := corner 0 0
     texCoords := ((s.slice.rect.left : ℚ), (s.slice.rect.top : ℚ))
     layer := s.slice.layer
     tint := tint },
   { position := corner 0 (sz.y : ℚ)
     texCoords := ((s.slice.rect.left : ℚ), (s.slice.rect.bottom : ℚ))
     layer := s.slice.layer
     tint := tint },
   { position := corner (sz.x : ℚ) 0
     texCoords := ((s.slice.rect.right : ℚ), (s.slice.rect.top : ℚ))
     layer := s.slice.layer
     tint := tint },
   { position := corner (sz.x : ℚ) (sz.y : ℚ)
     texCoords := ((s.slice.rect.right : ℚ), (s.slice.rect.bottom : ℚ))
     layer := s.slice.layer
     tint := tint }]

structure PreparedGroup where
  indexBufferStart : Nat
  indexBufferEnd : Nat
deriving DecidableEq, Repr

/-- The Rust cast `usize as u32` applied by `prepare` to the `Vec` lengths
(`vertices.len() as u32` at `src/lib.rs:417`, `indices.len() as u32` at
`src/lib.rs:414` and `510`): wrapping reduction modulo `2^32`. -/
def u32 (n : Nat) : Nat := n % 2 ^ 32

/-- The body of `prepare`'s inner loop (`src/lib.rs:416-479`): read the
current vertex count as `offset` (`vertices.len() as u32`, a wrapping
cast), push the sprite's four vertices, push the `u32` values
`[0,1,2,1,2,3]` each shifted by `offset` (u32 addition; since `offset` is
a multiple of 4 modulo `2^32` and `v ≤ 3`, the addition itself stays in
range, but it is reduced modulo `2^32` as u32 arithmetic is). -/
def emitSprite (acc : List Vertex × List Nat) (s : Sprite) : List Vertex × List Nat :=
  let offset := u32 acc.1.length
  (acc.1 ++ spriteVertices s, acc.2 ++ List.map (fun v => u32 (v + offset)) [0, 1, 2, 1, 2, 3])

/-- The body of `prepare`'s outer loop (`src/lib.rs:411-512`): record the
index count (`indices.len() as u32`, a wrapping cast) as the group's
start, run the inner loop over the group's sprites, record the resulting
index count (same cast) as the group's end. -/
def emitGroup (acc : (List Vertex × List Nat) × List PreparedGroup) (g : List Sprite) :
    (List Vertex × List Nat) × List PreparedGroup :=
  let start := u32 acc.1.2.length
  let vi := g.foldl emitSprite acc.1
  (vi, acc.2 ++ [⟨start, u32 vi.2.length⟩])

/-- The CPU-side output of `Renderer::prepare` (`src/lib.rs:380-385`,
`408-518`): group the sprites by texture identity, then run the nested
loops starting from empty `vertices`/`indices` vectors and a cleared
`prepared_groups` list. -/
def prepareCore (sprites : List Sprite) : (List Vertex × List Nat) × List PreparedGroup :=
  (chunkBy (fun s => s.slice.texture) sprites).foldl emitGroup (([], []), [])

/-- `Renderer::render` (`src/lib.rs:521-534`) records one `draw_indexed`
over `index_buffer_start..index_buffer_end` per prepared group. -/
def renderDrawCalls (pgs : List PreparedGroup) : List (Nat × Nat) :=
  pgs.map fun pg => (pg.indexBufferStart, pg.indexBufferEnd)

/-! ## DynamicBuffer (`src/lib.rs:149-186`)

Only the buffer's byte capacity (`self.inner.size()`) matters to the
claims; `write` compares the data length against it.  The `Bool` result
records which branch ran: `true` for the reallocation branch
(`reallocate` to exactly `size` bytes, populated through the mapped range
at creation), `false` for the in-place `queue.write_buffer` branch. -/

structure DynamicBuffer where
  size : Nat
deriving DecidableEq, Repr

namespace DynamicBuffer

/-- `DynamicBuffer::write` (`src/lib.rs:173-185`). -/
def write (b : DynamicBuffer) (dataLen : Nat) : DynamicBuffer × Bool :=
  if b.size < dataLen then (⟨dataLen⟩, true) else (b, false)

/-- A sequence of `write` calls, tracking only the buffer state. -/
def writes (b : DynamicBuffer) (l : List Nat) : DynamicBuffer :=
  l.foldl (fun b s => (b.write s).1) b

end DynamicBuffer

/-! ## Uniform packing offsets (`src/lib.rs:387-406`, `499-506`; `encase`)

`prepare` packs one `TextureUniforms` record per group into a
`DynamicUniformBuffer` created with the device's
`min_uniform_buffer_offset_alignment`.  `encase` rounds the write cursor up
to the alignment before each record; the record itself occupies
`TextureUniforms::SHADER_SIZE` bytes.  `TextureUniforms` is
`{size: Vec3<f32>, is_mask: u32}`: under the WGSL uniform layout rules
`encase` implements, `Vec3` has size 12/alignment 16, `is_mask` sits at
offset 12, and the struct size rounds up to 16 bytes.

`alignUp n a` is `encase`'s `round_up`: the bitmask form
`(n + a - 1) & !(a - 1)` used there equals this quotient form for the
power-of-two alignments `encase` accepts (its `AlignmentValue` asserts
power-of-two-ness, and WebGPU device alignments are powers of two). -/

def TEXTURE_UNIFORMS_SHADER_SIZE : Nat := 16

def alignUp (n a : Nat) : Nat := ((n + a - 1) / a) * a

/-- The `encase` write cursor after `i` records: each write first aligns
the cursor up, then advances it by the record size. -/
def encaseCursor (a : Nat) : Nat → Nat
  | 0 => 0
  | i + 1 => alignUp (encaseCursor a i) a + TEXTURE_UNIFORMS_SHADER_SIZE

/-- The byte offset at which `encase` places the `i`-th record. -/
def encaseOffset (a i : Nat) : Nat := alignUp (encaseCursor a i) a

/-- The binding offset `prepare` computes for group `i`
(`src/lib.rs:503`): `i * min_uniform_buffer_offset_alignment`. -/
def bindingOffset (a i : Nat) : Nat := i * a

/-! ## Characterizations of the `prepare` loops -/

/-- The index stream emitted for `n` consecutive sprites when the vertex
vector already holds `off` vertices (`off` is the true, unwrapped count;
each emitted u32 value applies the wrapping casts of `emitSprite`). -/
def indexStreamFrom (off : Nat) : Nat → List Nat
  | 0 => []
  | n + 1 =>
    List.map (fun v => u32 (v + u32 off)) [0, 1, 2, 1, 2, 3] ++ indexStreamFrom (off + 4) n

/-- The `PreparedGroup` records pushed for a list of groups when the index
vector already holds `istart` indices (`istart` the true count; the
recorded u32 fields apply the wrapping cast of `emitGroup`). -/
def groupRecordsFrom (istart : Nat) : List (List Sprite) → List PreparedGroup
  | [] => []
  | g :: rest =>
    ⟨u32 istart, u32 (istart + 6 * g.length)⟩ :: groupRecordsFrom (istart + 6 * g.length) rest

theorem length_indexStreamFrom (off n : Nat) :
    (indexStreamFrom off n).length = 6 * n := by
  induction n generalizing off with
  | zero => rfl
  | succ n ih => simp [indexStreamFrom, ih]; omega

theorem indexStreamFrom_add (off m n : Nat) :
    indexStreamFrom off (m + n) =
      indexStreamFrom off m ++ indexStreamFrom (off + 4 * m) n := by
  induction m generalizing off with
  | zero => simp [indexStreamFrom]
  | succ m ih =>
    have hmn : m + 1 + n = (m + n) + 1 := by omega
    rw [hmn]
    simp only [indexStreamFrom, ih (off + 4)]
    rw [List.append_assoc]
    have hoff : off + 4 + 4 * m = off + 4 * (m + 1) := by omega
    rw [hoff]

theorem indexStreamFrom_eq_flatMap (m n : Nat) :
    indexStreamFrom (4 * m) n =
      (List.range n).flatMap
        (fun k => List.map (fun v => u32 (v + u32 (4 * (m + k)))) [0, 1, 2, 1, 2, 3]) := by
  induction n generalizing m with
  | zero => rfl
  | succ n ih =>
    have h4 : 4 * m + 4 = 4 * (m + 1) := by omega
    simp only [indexStreamFrom, h4, ih (m + 1), List.range_succ_eq_map, List.flatMap_cons,
      List.flatMap_map]
    have hk : ∀ k : Nat, m + 1 + k = m + (k + 1) := fun k => by omega
    simp only [hk, Nat.add_zero, Nat.succ_eq_add_one]

theorem foldl_emitSprite (g : List Sprite) (vs : List Vertex) (is : List Nat) :
    (g.foldl emitSprite (vs, is)).1.length = vs.length + 4 * g.length ∧
    (g.foldl emitSprite (vs, is)).2 = is ++ indexStreamFrom vs.length g.length := by
  induction g generalizing vs is with
  | nil => simp [indexStreamFrom]
  | cons s rest ih =>
    rw [List.foldl_cons]
    have step : emitSprite (vs, is) s =
        (vs ++ spriteVertices s,
          is ++ List.map (fun v => u32 (v + u32 vs.length)) [0, 1, 2, 1, 2, 3]) := rfl
    rw [step]
    obtain ⟨ih1, ih2⟩ := ih (vs ++ spriteVertices s)
      (is ++ List.map (fun v => u32 (v + u32 vs.length)) [0, 1, 2, 1, 2, 3])
    have hlen : (vs ++ spriteVertices s).length = vs.length + 4 := by
      simp [spriteVertices]
    constructor
    · rw [ih1, hlen]; simp only [List.length_cons]; omega
    · rw [ih2, hlen]
      simp only [indexStreamFrom, List.append_assoc, List.length_cons]

theorem foldl_emitGroup (gs : List (List Sprite)) (vs : List Vertex) (is : List Nat)
    (pgs : List PreparedGroup) :
    (gs.foldl emitGroup ((vs, is), pgs)).1.1.length = vs.length + 4 * gs.flatten.length ∧
    (gs.foldl emitGroup ((vs, is), pgs)).1.2 =
      is ++ indexStreamFrom vs.length gs.flatten.length ∧
    (gs.foldl emitGroup ((vs, is), pgs)).2 = pgs ++ groupRecordsFrom is.length gs := by
  induction gs generalizing vs is pgs with
  | nil => simp [indexStreamFrom, groupRecordsFrom]
  | cons g rest ih =>
    rw [List.foldl_cons]
    obtain ⟨h1, h2⟩ := foldl_emitSprite g vs is
    rcases hre : g.foldl emitSprite (vs, is) with ⟨vs', is'⟩
    rw [hre] at h1 h2
    dsimp only at h1 h2
    have hislen : is'.length = is.length + 6 * g.length := by
      rw [h2]; simp [length_indexStreamFrom]
    have step : emitGroup ((vs, is), pgs) g =
        ((vs', is'), pgs ++ [⟨u32 is.length, u32 is'.length⟩]) := by
      simp only [emitGroup, hre]
    rw [step]
    obtain ⟨ih1, ih2, ih3⟩ := ih vs' is' (pgs ++ [⟨u32 is.length, u32 is'.length⟩])
    refine ⟨?_, ?_, ?_⟩
    · rw [ih1, h1]
      simp only [List.flatten_cons, List.length_append]
      omega
    · rw [ih2, h2, h1]
      simp only [List.flatten_cons, List.length_append, List.append_assoc]
      rw [← indexStreamFrom_add]
    · rw [ih3, hislen]
      simp only [List.length_append, List.append_assoc]
      rw [groupRecordsFrom]
      simp

theorem u32_eq_of_lt {n : Nat} (h : n < 2 ^ 32) : u32 n = n :=
  Nat.mod_eq_of_lt h

theorem u32_lt (n : Nat) : u32 n < 2 ^ 32 :=
  Nat.mod_lt _ (by norm_num)

/-- Every value in the emitted index stream is a u32 value. -/
theorem mem_indexStreamFrom_lt (n : Nat) :
    ∀ (off : Nat) (x : Nat), x ∈ indexStreamFrom off n → x < 2 ^ 32 := by
  induction n with
  | zero => intro off x hx; simp [indexStreamFrom] at hx
  | succ n ih =>
    intro off x hx
    rw [indexStreamFrom, List.mem_append] at hx
    rcases hx with hx | hx
    · obtain ⟨v, _, rfl⟩ := List.mem_map.mp hx
      exact u32_lt _
    · exact ih (off + 4) x hx

/-- As long as the vertex count stays below `2^32` (i.e. at most `2^30`
sprites, guaranteed by `6 * n < 2^32`), no cast wraps and the streams
coincide with the unwrapped `v + 4k` form. -/
theorem flatMap_u32_eq_unwrapped (n : Nat) (h : 4 * n ≤ 2 ^ 32) :
    (List.range n).flatMap
        (fun k => List.map (fun v => u32 (v + u32 (4 * k))) [0, 1, 2, 1, 2, 3]) =
      (List.range n).flatMap
        (fun k => List.map (fun v => v + 4 * k) [0, 1, 2, 1, 2, 3]) := by
  rw [List.flatMap_def, List.flatMap_def]
  congr 1
  apply List.map_congr_left
  intro k hk
  rw [List.mem_range] at hk
  have h32 : (2 : Nat) ^ 32 = 4294967296 := by norm_num
  rw [h32] at h
  have hm : u32 (4 * k) = 4 * k := u32_eq_of_lt (by rw [h32]; omega)
  rw [hm]
  apply List.map_congr_left
  intro v hv
  have hv3 : v ≤ 3 := by fin_cases hv <;> norm_num
  exact u32_eq_of_lt (by rw [h32]; omega)

theorem forall₂_groupRecordsFrom (c : Nat) (gs : List (List Sprite))
    (h : c + 6 * gs.flatten.length < 2 ^ 32) :
    List.Forall₂ (fun (pg : PreparedGroup) (g : List Sprite) =>
      pg.indexBufferEnd - pg.indexBufferStart = 6 * g.length)
      (groupRecordsFrom c gs) gs := by
  induction gs generalizing c with
  | nil => exact List.Forall₂.nil
  | cons g rest ih =>
    rw [List.flatten_cons, List.length_append] at h
    rw [groupRecordsFrom]
    refine List.Forall₂.cons ?_ (ih (c + 6 * g.length) (by omega))
    have hc : u32 c = c := u32_eq_of_lt (by omega)
    have hce : u32 (c + 6 * g.length) = c + 6 * g.length := u32_eq_of_lt (by omega)
    simp only [hc, hce]
    omega

theorem alignUp_zero (a : Nat) (ha : 1 ≤ a) : alignUp 0 a = 0 := by
  simp [alignUp, Nat.div_eq_of_lt (show a - 1 < a by omega)]

theorem alignUp_step (a i : Nat) (ha : 16 ≤ a) :
    alignUp (i * a + 16) a = (i + 1) * a := by
  unfold alignUp
  have hmul : a * (i + 1) = i * a + a := by ring
  have h : i * a + 16 + a - 1 = a * (i + 1) + 15 := by omega
  rw [h, Nat.mul_add_div (by omega : 0 < a), Nat.div_eq_of_lt (by omega : 15 < a)]

theorem encaseOffset_eq (a i : Nat) (ha : 16 ≤ a) : encaseOffset a i = i * a := by
  induction i with
  | zero =>
    simp [encaseOffset, encaseCursor, alignUp_zero a (by omega)]
  | succ i ih =>
    unfold encaseOffset at ih ⊢
    rw [encaseCursor, ih]
    simp only [TEXTURE_UNIFORMS_SHADER_SIZE]
    rw [alignUp_step a i ha]

namespace DynamicBuffer

theorem write_fst_size (b : DynamicBuffer) (s : Nat) :
    ((b.write s).1).size = max b.size s := by
  unfold write
  split <;> dsimp only <;> omega

theorem size_le_writes (b : DynamicBuffer) (l : List Nat) :
    b.size ≤ (b.writes l).size := by
  induction l generalizing b with
  | nil => exact Nat.le_refl _
  | cons a rest ih =>
    have hstep : b.writes (a :: rest) = ((b.write a).1).writes rest := rfl
    rw [hstep]
    exact le_trans (by rw [write_fst_size]; omega) (ih _)

theorem mem_le_writes (l : List Nat) :
    ∀ (b : DynamicBuffer) (s : Nat), s ∈ l → s ≤ (b.writes l).size := by
  induction l with
  | nil => intro b s h; cases h
  | cons a rest ih =>
    intro b s h
    have hstep : b.writes (a :: rest) = ((b.write a).1).writes rest := rfl
    rw [hstep]
    rcases List.mem_cons.mp h with rfl | h'
    · exact le_trans (by rw [write_fst_size]; omega) (size_le_writes _ rest)
    · exact ih _ s h'

end DynamicBuffer

/-- The spec's notion of a rectangle lying inside another, with exact
(unbounded) integer arithmetic — offset plus size, no wrapping.  Stated
from the spec's words ("any edge of the new rectangle falls outside
`self.rect`", "cannot escape outward") for comparison with the code's
wrapping `Rect.right`/`Rect.bottom` checks. -/
def Rect.mathInside (r outer : Rect) : Prop :=
  outer.offset.x ≤ r.offset.x ∧ outer.offset.y ≤ r.offset.y ∧
  r.offset.x + (r.size.x : Int) ≤ outer.offset.x + (outer.size.x : Int) ∧
  r.offset.y + (r.size.y : Int) ≤ outer.offset.y + (outer.size.y : Int)

instance (r outer : Rect) : Decidable (r.mathInside outer) := by
  unfold Rect.mathInside; infer_instance

/-! ## The claims -/

/-- C1: Grouping is order-preserving — concatenating the sprites of the
output groups in group order reproduces the input sequence exactly, both
for the `chunk_by` grouping inside `Renderer::prepare` and for `batch`
(whose groups carry the sprites' payload as `Item`s). -/
theorem grouping_order_preserving :
    (∀ l : List Sprite, (chunkBy (fun s => s.slice.texture) l).flatten = l) ∧
    (∀ l : List BatchSprite, (batch l).flatMap Group.items = l.map itemOfSprite) := by
  refine ⟨fun l => flatten_chunkBy _ l, fun l => ?_⟩
  unfold batch
  rw [List.flatMap_map]
  have h : ((chunkBy (fun s => s.texture) l).map (List.map itemOfSprite)).flatten =
      ((chunkBy (fun s => s.texture) l).flatten).map itemOfSprite := by
    rw [List.map_flatten]
  calc (chunkBy (fun s => s.texture) l).flatMap
        (fun c => (Group.mk c.headI.texture (c.map itemOfSprite)).items)
      = ((chunkBy (fun s => s.texture) l).map (List.map itemOfSprite)).flatten := by
        rw [List.flatMap_def]
    _ = ((chunkBy (fun s => s.texture) l).flatten).map itemOfSprite := h
    _ = l.map itemOfSprite := by rw [flatten_chunkBy]

/-- C2: Grouping is maximal-contiguous — no two adjacent output groups
reference the same texture identity; and the input `[tex1, tex1, tex2,
tex1]` yields exactly 3 groups of sizes `[2, 1, 1]` with textures
`[1, 2, 1]`. -/
theorem grouping_maximal_contiguous :
    (∀ l : List BatchSprite,
      List.Chain' (fun g h => g.texture ≠ h.texture) (batch l)) ∧
    (batch [mkSprite 1, mkSprite 1, mkSprite 2, mkSprite 1]).map
        (fun g => g.items.length) = [2, 1, 1] ∧
    (batch [mkSprite 1, mkSprite 1, mkSprite 2, mkSprite 1]).map Group.texture =
      [1, 2, 1] := by
  refine ⟨fun l => ?_, by rfl, by rfl⟩
  unfold batch
  rw [List.chain'_map]
  exact chain_chunkBy (fun s => s.texture) l

/-- C3 counterexample: under the code's composition
(`mul_assign`: `a * b` applies `a` first, then `b`),
`translation(10,20) * scaling(2,2)` sends the top-left corner `(0,0)` of
the source rectangle to `(20,40)`, which is none of the four corner
positions the claim states. -/
theorem translation_scaling_corner_counterexample :
    (AffineTransform.translation 10 20 * AffineTransform.scaling 2 2).transform 0 0
      = (20, 40) ∧
    (AffineTransform.translation 10 20 * AffineTransform.scaling 2 2).transform 0 0
      ∉ ([(10, 20), (10, 440), (570, 20), (570, 440)] : List (ℚ × ℚ)) := by
  constructor <;>
    simp only [AffineTransform.mul_def, AffineTransform.mul, AffineTransform.translation,
      AffineTransform.scaling, AffineTransform.transform, List.mem_cons, List.mem_singleton,
      List.not_mem_nil, Prod.mk.injEq, not_or] <;>
    norm_num

/-- C3 (amended): `translation(10,20) * scaling(2,2)` maps the corners of
the (280,210) source rectangle to `(20,40)`, `(20,460)`, `(580,40)`,
`(580,460)`; the corner positions the claim states are produced by the
reversed composition `scaling(2,2) * translation(10,20)`. -/
theorem composition_corner_mapping :
    (AffineTransform.translation 10 20 * AffineTransform.scaling 2 2).transform 0 0
      = (20, 40) ∧
    (AffineTransform.translation 10 20 * AffineTransform.scaling 2 2).transform 0 210
      = (20, 460) ∧
    (AffineTransform.translation 10 20 * AffineTransform.scaling 2 2).transform 280 0
      = (580, 40) ∧
    (AffineTransform.translation 10 20 * AffineTransform.scaling 2 2).transform 280 210
      = (580, 460) ∧
    (AffineTransform.scaling 2 2 * AffineTransform.translation 10 20).transform 0 0
      = (10, 20) ∧
    (AffineTransform.scaling 2 2 * AffineTransform.translation 10 20).transform 0 210
      = (10, 440) ∧
    (AffineTransform.scaling 2 2 * AffineTransform.translation 10 20).transform 280 0
      = (570, 20) ∧
    (AffineTransform.scaling 2 2 * AffineTransform.translation 10 20).transform 280 210
      = (570, 440) := by
  refine ⟨?_, ?_, ?_, ?_, ?_, ?_, ?_, ?_⟩ <;>
    simp only [AffineTransform.mul_def, AffineTransform.mul, AffineTransform.translation,
      AffineTransform.scaling, AffineTransform.transform, Prod.mk.injEq] <;>
    norm_num

/-- A concrete sprite (`src/lib.rs` `Sprite`) used in scenarios and
counterexamples. -/
def mkLibSprite : Sprite :=
  { slice := ⟨1, 0, Rect.new 0 0 0 0⟩
    transform := default
    tint := ⟨0, 0, 0, 0⟩ }

/-- C4 counterexample: on `2^30 + 1` sprites the claim's unwrapped index
stream is refuted — the source casts `vertices.len() as u32`
(`src/lib.rs:417`), so sprite `k = 2^30` is emitted with offset
`u32 (4 * 2^30) = 0`, not `4 * 2^30 = 2^32`.  The unwrapped stream
contains the value `2^32`, which no u32 index stream can contain. -/
theorem prepare_index_wrap_counterexample :
    (prepareCore (List.replicate (2 ^ 30 + 1) mkLibSprite)).1.2 ≠
      (List.range (2 ^ 30 + 1)).flatMap
        (fun k => List.map (fun v => v + 4 * k) [0, 1, 2, 1, 2, 3]) := by
  intro heq
  obtain ⟨-, h2, -⟩ := foldl_emitGroup
    (chunkBy (fun s => s.slice.texture) (List.replicate (2 ^ 30 + 1) mkLibSprite)) [] [] []
  have hfl := flatten_chunkBy (fun s : Sprite => s.slice.texture)
    (List.replicate (2 ^ 30 + 1) mkLibSprite)
  have hind : (prepareCore (List.replicate (2 ^ 30 + 1) mkLibSprite)).1.2 =
      indexStreamFrom 0 (2 ^ 30 + 1) := by
    unfold prepareCore
    rw [h2, hfl, List.length_replicate]
    exact List.nil_append _
  have hmem : (2 ^ 32 : Nat) ∈
      (List.range (2 ^ 30 + 1)).flatMap
        (fun k => List.map (fun v => v + 4 * k) [0, 1, 2, 1, 2, 3]) := by
    rw [List.mem_flatMap]
    refine ⟨2 ^ 30, by rw [List.mem_range]; omega, ?_⟩
    rw [List.mem_map]
    exact ⟨0, by norm_num, by norm_num⟩
  rw [← heq, hind] at hmem
  exact absurd (mem_indexStreamFrom_lt _ _ _ hmem) (by norm_num)

/-- C4 (amended): `prepare` on `n` sprites builds exactly `4n` vertices
and `6n` indices; the six u32 index values emitted for the `k`-th sprite
overall are `[0,1,2,1,2,3]` each offset by `4k` reduced modulo `2^32`
(the source casts the vertex count with `as u32`), and the group records
hold the u32-cast index counts; whenever `6n < 2^32` no cast wraps, so
the `k`-th sprite's indices are offset by exactly `4k` and each group's
recorded index range `[start,end)` has length `6 *` (number of sprites in
that group). -/
theorem prepare_vertex_index_counts (sprites : List Sprite) :
    (prepareCore sprites).1.1.length = 4 * sprites.length ∧
    (prepareCore sprites).1.2.length = 6 * sprites.length ∧
    (prepareCore sprites).1.2 =
      (List.range sprites.length).flatMap
        (fun k => List.map (fun v => u32 (v + u32 (4 * k))) [0, 1, 2, 1, 2, 3]) ∧
    (6 * sprites.length < 2 ^ 32 →
      (prepareCore sprites).1.2 =
        (List.range sprites.length).flatMap
          (fun k => List.map (fun v => v + 4 * k) [0, 1, 2, 1, 2, 3])) ∧
    (6 * sprites.length < 2 ^ 32 →
      List.Forall₂ (fun (pg : PreparedGroup) (g : List Sprite) =>
          pg.indexBufferEnd - pg.indexBufferStart = 6 * g.length)
        (prepareCore sprites).2 (chunkBy (fun s => s.slice.texture) sprites)) := by
  have hfl : (chunkBy (fun s => s.slice.texture) sprites).flatten = sprites :=
    flatten_chunkBy _ _
  obtain ⟨h1, h2, h3⟩ := foldl_emitGroup (chunkBy (fun s => s.slice.texture) sprites) [] [] []
  have hwrapped : (prepareCore sprites).1.2 =
      (List.range sprites.length).flatMap
        (fun k => List.map (fun v => u32 (v + u32 (4 * k))) [0, 1, 2, 1, 2, 3]) := by
    unfold prepareCore
    rw [h2, hfl]
    simp only [List.nil_append, List.length_nil]
    have he := indexStreamFrom_eq_flatMap 0 sprites.length
    simpa using he
  refine ⟨?_, ?_, hwrapped, ?_, ?_⟩
  · unfold prepareCore; rw [h1, hfl]; simp
  · unfold prepareCore; rw [h2, hfl]; simp [length_indexStreamFrom]
  · intro hn
    rw [hwrapped]
    exact flatMap_u32_eq_unwrapped sprites.length (by omega)
  · intro hn
    show List.Forall₂ _ (prepareCore sprites).2 _
    unfold prepareCore
    rw [h3]
    simp only [List.nil_append, List.length_nil]
    refine forall₂_groupRecordsFrom 0 _ ?_
    rw [hfl]
    omega

/-- C4 witness: on a concrete two-sprite list the no-wrap bound holds and
the unwrapped index stream and group-range facts follow. -/
theorem prepare_vertex_index_counts_witness :
    6 * ([mkLibSprite, mkLibSprite] : List Sprite).length < 2 ^ 32 ∧
    (prepareCore [mkLibSprite, mkLibSprite]).1.2 =
      (List.range 2).flatMap
        (fun k => List.map (fun v => v + 4 * k) [0, 1, 2, 1, 2, 3]) ∧
    List.Forall₂ (fun (pg : PreparedGroup) (g : List Sprite) =>
        pg.indexBufferEnd - pg.indexBufferStart = 6 * g.length)
      (prepareCore [mkLibSprite, mkLibSprite]).2
      (chunkBy (fun s => s.slice.texture) [mkLibSprite, mkLibSprite]) := by
  refine ⟨by norm_num, ?_, ?_⟩
  · exact (prepare_vertex_index_counts [mkLibSprite, mkLibSprite]).2.2.2.1 (by norm_num)
  · exact (prepare_vertex_index_counts [mkLibSprite, mkLibSprite]).2.2.2.2 (by norm_num)

/-- C5 (code bug): `from_layer` does fail exactly when the layer is out of
range, but `slice` does not fail for every rectangle that extends beyond
`self.rect`: with a 100x100 source slice, `slice((0,0), (2^31, 1))`
succeeds because the Rust cast `size.x as i32` wraps `2^31` to `-2^31`,
making the computed right edge pass the bounds check, even though the
resulting rectangle lies far outside the original one. -/
theorem slice_bounds_escape :
    (∀ (t : Texture) (layer : Nat),
      TextureSlice.from_layer t layer = none ↔ layer ≥ t.depthOrArrayLayers) ∧
    TextureSlice.from_layer ⟨0, 100, 100, 1, false⟩ 0
      = some ⟨0, 0, Rect.new 0 0 100 100⟩ ∧
    TextureSlice.slice ⟨0, 0, Rect.new 0 0 100 100⟩ ⟨0, 0⟩ ⟨2 ^ 31, 1⟩
      = some ⟨0, 0, ⟨⟨0, 0⟩, ⟨2 ^ 31, 1⟩⟩⟩ ∧
    ¬ Rect.mathInside ⟨⟨0, 0⟩, ⟨2 ^ 31, 1⟩⟩ (Rect.new 0 0 100 100) := by
  refine ⟨fun t layer => ?_, by decide, by decide, by decide⟩
  unfold TextureSlice.from_layer
  split
  · simp_all
  · simp_all

/-- C6: `DynamicBuffer` capacity is monotonically non-decreasing across any
sequence of `write` calls and ends at least `max` of the written sizes; a
`write` takes the reallocation branch exactly when the required size
exceeds the current capacity, reallocating to exactly the required size,
and otherwise leaves the buffer unchanged (queued in-place write). -/
theorem dynamic_buffer_capacity (b : DynamicBuffer) (l : List Nat) (s : Nat) :
    ((b.write s).2 = true ↔ b.size < s) ∧
    (b.size < s → (b.write s).1 = ⟨s⟩) ∧
    (¬ b.size < s → b.write s = (b, false)) ∧
    b.size ≤ ((b.write s).1).size ∧
    b.size ≤ (b.writes l).size ∧
    (s ∈ l → s ≤ (b.writes l).size) := by
  refine ⟨?_, ?_, ?_, ?_, DynamicBuffer.size_le_writes b l,
    fun h => DynamicBuffer.mem_le_writes l b s h⟩
  · unfold DynamicBuffer.write
    split <;> simp_all
  · intro h; unfold DynamicBuffer.write; simp [h]
  · intro h; unfold DynamicBuffer.write; simp [h]
  · rw [DynamicBuffer.write_fst_size]; omega

/-- C6 witness: a concrete run of the sequence facts at `b = ⟨0⟩`,
`l = [5, 3]`, `s = 5`. -/
theorem dynamic_buffer_capacity_witness :
    ((DynamicBuffer.mk 0).write 5).2 = true ∧
    5 ≤ ((DynamicBuffer.mk 0).writes [5, 3]).size := by
  refine ⟨(dynamic_buffer_capacity ⟨0⟩ [5, 3] 5).1.mpr (by decide),
    (dynamic_buffer_capacity ⟨0⟩ [5, 3] 5).2.2.2.2.2 (by decide)⟩

/-- C7: with `prepare`'s packing of one 16-byte `TextureUniforms` record
per group at a power-of-two device alignment `A ≥ 16`, the `encase` packing
places record `i` at offset `i * A`; the binding offset `prepare` computes
for group `i` equals that offset, equals `i *` the aligned stride, is a
multiple of `A`, and consecutive offsets differ by at least the record
size. -/
theorem uniform_offsets (a i : Nat) (hpow : ∃ k, a = 2 ^ k) (ha : 16 ≤ a) :
    encaseOffset a i = i * a ∧
    bindingOffset a i = encaseOffset a i ∧
    bindingOffset a i = i * alignUp TEXTURE_UNIFORMS_SHADER_SIZE a ∧
    a ∣ bindingOffset a i ∧
    TEXTURE_UNIFORMS_SHADER_SIZE ≤ bindingOffset a (i + 1) - bindingOffset a i := by
  have he := encaseOffset_eq a i ha
  refine ⟨he, by rw [he]; rfl, ?_, dvd_mul_left a i, ?_⟩
  · have h16 : alignUp TEXTURE_UNIFORMS_SHADER_SIZE a = a := by
      have := alignUp_step a 0 ha
      simpa [TEXTURE_UNIFORMS_SHADER_SIZE] using this
    rw [h16]; rfl
  · unfold bindingOffset TEXTURE_UNIFORMS_SHADER_SIZE
    have hmul : (i + 1) * a = i * a + a := by ring
    omega

/-- C7 witness: the offsets at the common device alignment `A = 256` for
group `i = 2`. -/
theorem uniform_offsets_witness :
    encaseOffset 256 2 = 2 * 256 ∧ (256 : Nat) ∣ bindingOffset 256 2 := by
  refine ⟨(uniform_offsets 256 2 ⟨8, by norm_num⟩ (by norm_num)).1,
    (uniform_offsets 256 2 ⟨8, by norm_num⟩ (by norm_num)).2.2.2.1⟩

/-- C8: `inverse` returns `none` exactly when the determinant is zero (the
code compares `det == 0.0` with no epsilon); in particular `scaling(0,1)`
has determinant `0` and no inverse. -/
theorem inverse_none_iff_det_zero :
    (∀ t : AffineTransform, t.inverse = none ↔ t.determinant = 0) ∧
    (AffineTransform.scaling 0 1).determinant = 0 ∧
    (AffineTransform.scaling 0 1).inverse = none := by
  have hdet : (AffineTransform.scaling 0 1).determinant = 0 := by
    simp only [AffineTransform.determinant, AffineTransform.scaling]
    norm_num
  have hiff : ∀ t : AffineTransform, t.inverse = none ↔ t.determinant = 0 := by
    intro t
    by_cases h : t.determinant = 0 <;> simp [AffineTransform.inverse, h]
  exact ⟨hiff, hdet, (hiff _).mpr hdet⟩

/-- C9: an empty sprite list is not an error — `prepare` produces zero
groups, zero vertices and zero indices, a `write` of zero bytes leaves any
`DynamicBuffer` unchanged on the in-place branch, and `render` records
zero draw calls. -/
theorem empty_sprite_list_ok :
    prepareCore [] = (([], []), []) ∧
    chunkBy (fun s : Sprite => s.slice.texture) [] = [] ∧
    renderDrawCalls (prepareCore []).2 = [] ∧
    (∀ b : DynamicBuffer, b.write 0 = (b, false)) := by
  refine ⟨rfl, rfl, rfl, fun b => ?_⟩
  simp [DynamicBuffer.write]

/-- C10: every group produced by the chunk-by-texture grouping is
nonempty, for both groupings in the crate, so `first().unwrap()` on a
group cannot panic in `batch` or in `prepare`. -/
theorem chunk_groups_nonempty :
    (∀ (l g : List Sprite), g ∈ chunkBy (fun s => s.slice.texture) l → g ≠ []) ∧
    (∀ (l g : List BatchSprite), g ∈ chunkBy (fun s => s.texture) l → g ≠ []) :=
  ⟨fun _ _ h => ne_nil_of_mem_chunkBy _ h, fun _ _ h => ne_nil_of_mem_chunkBy _ h⟩

/-- C10 witness: the single chunk of a one-sprite input is nonempty. -/
theorem chunk_groups_nonempty_witness :
    [mkSprite 1] ∈ chunkBy (fun s : BatchSprite => s.texture) [mkSprite 1] ∧
    [mkSprite 1] ≠ ([] : List BatchSprite) := by
  have hm : [mkSprite 1] ∈ chunkBy (fun s : BatchSprite => s.texture) [mkSprite 1] := by
    simp [chunkBy]
  exact ⟨hm, chunk_groups_nonempty.2 [mkSprite 1] [mkSprite 1] hm⟩

end Spright
